import Mathlib

/-!
Verification of the LinkAdaptation baseband processing chain
(`baseband_processing.py`, class `Link_Simulation`).

The receiver pipeline (`receive`): noise-variance translation, LS channel
estimation with nearest-neighbour interpolation, per-element LMMSE
equalization, APP soft demapping, and LDPC belief-propagation decoding.
The numeric stages live in the sionna library; they are modelled here from
the documented contracts, while the composition (`receive`, `transmit`,
`__init__`) is embedded from the source.  Tensors are embedded per stream
as vectors `Fin n → α`; floating-point arithmetic is idealized over a
linear ordered field (`ℚ` for executable checks, `ℝ` where dB conversion
needs `exp`/`log`).
-/

namespace LinkAdaptation

/-- Complex number over an arbitrary field, used to embed the complex
tensor arithmetic of the transmit/receive chain. -/
structure Cplx (K : Type) where
  re : K
  im : K
deriving DecidableEq

namespace Cplx

variable {K : Type} [Field K]

/-- Complex addition. -/
def add (z w : Cplx K) : Cplx K := ⟨z.re + w.re, z.im + w.im⟩

/-- Complex subtraction. -/
def sub (z w : Cplx K) : Cplx K := ⟨z.re - w.re, z.im - w.im⟩

/-- Complex multiplication. -/
def mul (z w : Cplx K) : Cplx K :=
  ⟨z.re * w.re - z.im * w.im, z.re * w.im + z.im * w.re⟩

/-- Complex conjugate. -/
def conj (z : Cplx K) : Cplx K := ⟨z.re, -z.im⟩

/-- Squared magnitude `|z|^2`. -/
def normSq (z : Cplx K) : K := z.re * z.re + z.im * z.im

/-- Complex division `z / w`, via multiplication by the conjugate. -/
def div (z w : Cplx K) : Cplx K :=
  ⟨(z.re * w.re + z.im * w.im) / normSq w,
   (z.im * w.re - z.re * w.im) / normSq w⟩

/-- Scalar multiple of a complex number. -/
def smul (a : K) (z : Cplx K) : Cplx K := ⟨a * z.re, a * z.im⟩

/-- Dividing a noiseless pilot observation `h * s` by the pilot symbol `s`
recovers `h` exactly whenever `|s|^2 = 1`. -/
theorem mul_div_cancel_of_normSq_one (h s : Cplx K) (hs : normSq s = 1) :
    (h.mul s).div s = h := by
  cases h with
  | mk hr hi =>
    cases s with
    | mk sr si =>
      simp only [Cplx.normSq] at hs
      simp only [Cplx.mul, Cplx.div, Cplx.normSq, hs, div_one, Cplx.mk.injEq]
      constructor
      · linear_combination hr * hs
      · linear_combination hi * hs

end Cplx

/-! ### Interleaver / deinterleaver

`Link_Simulation.__initialize_transmitter` builds `RandomInterleaver()`
(line 48) and `__initialize_receiver` builds `Deinterleaver(self.interleaver)`
from the very same instance (line 79); `transmit` applies the interleaver to
the codewords (line 94).  Modelled from the spec: the interleaver applies a
fixed pseudo-random permutation of the coded-bit axis, and the deinterleaver
constructed from it applies the exact inverse permutation. -/

/-- Modelled from the spec: `RandomInterleaver` reorders a length-`n`
sequence by a permutation `p` (element `i` of the output is element `p i`
of the input). -/
def interleave {n : ℕ} {α : Type} (p : Equiv.Perm (Fin n)) (x : Fin n → α) :
    Fin n → α :=
  fun i => x (p i)

/-- Modelled from the spec: `Deinterleaver(interleaver)` applies the inverse
of the interleaver's permutation, restoring coded-bit order. -/
def deinterleave {n : ℕ} {α : Type} (p : Equiv.Perm (Fin n)) (x : Fin n → α) :
    Fin n → α :=
  fun i => x (p.symm i)

/-- C2: for every sequence of the configured length, the receiver's
deinterleaver (built from the same interleaver instance, hence the same
permutation) undoes the transmitter's interleaver exactly:
`deinterleave (interleave x) = x`. -/
theorem deinterleave_interleave {n : ℕ} {α : Type} (p : Equiv.Perm (Fin n))
    (x : Fin n → α) : deinterleave p (interleave p x) = x := by
  funext i
  simp [deinterleave, interleave]

/-! ### Noise-variance translator

`Link_Simulation.snr_to_noise_variance` (lines 83-88) delegates to
`sionna.utils.ebnodb2no`.  Modelled from the spec: `Eb/N0` in dB is turned
into linear scale, multiplied by bits-per-symbol, code rate and the
resource-grid overhead ratio, and inverted to yield `N0`. -/

/-- Modelled from the spec: conversion from decibels to linear scale,
`10 ^ (x / 10)`, written through `exp`/`log`. -/
noncomputable def dbToLin (x : ℝ) : ℝ := Real.exp (x / 10 * Real.log 10)

/-- Modelled from the spec (`sionna.utils.ebnodb2no`): the noise variance is
the inverse of the symbol-level SNR, obtained from linear `Eb/N0` scaled by
bits-per-symbol, code rate and the ratio of total grid elements to
data-carrying elements. -/
noncomputable def snr_to_noise_variance (ebnoDb : ℝ) (bps : ℕ) (rate : ℝ)
    (total ndata : ℕ) : ℝ :=
  1 / (dbToLin ebnoDb * bps * rate * ((total : ℝ) / ndata))

/-- Conversion to linear scale is positive and strictly increasing. -/
theorem dbToLin_pos (x : ℝ) : 0 < dbToLin x := Real.exp_pos _

/-- Strict monotonicity of the dB-to-linear map. -/
theorem dbToLin_lt_dbToLin {x y : ℝ} (h : x < y) : dbToLin x < dbToLin y := by
  have hlog : 0 < Real.log 10 := Real.log_pos (by norm_num)
  have hx : x / 10 < y / 10 := by linarith
  exact Real.exp_lt_exp.mpr (mul_lt_mul_of_pos_right hx hlog)

/-- C3: for fixed positive bits-per-symbol, code rate and grid sizes, the
noise variance is strictly positive for every finite `ebno_dB` and strictly
decreasing as `ebno_dB` increases. -/
theorem snr_to_noise_variance_pos_strictAnti (bps : ℕ) (rate : ℝ)
    (total ndata : ℕ) (hb : 0 < bps) (hr : 0 < rate) (ht : 0 < total)
    (hd : 0 < ndata) (e₁ e₂ : ℝ) (he : e₁ < e₂) :
    0 < snr_to_noise_variance e₁ bps rate total ndata ∧
      snr_to_noise_variance e₂ bps rate total ndata <
        snr_to_noise_variance e₁ bps rate total ndata := by
  have hbR : (0 : ℝ) < bps := by exact_mod_cast hb
  have htR : (0 : ℝ) < total := by exact_mod_cast ht
  have hdR : (0 : ℝ) < ndata := by exact_mod_cast hd
  have hratio : (0 : ℝ) < (total : ℝ) / ndata := div_pos htR hdR
  have hden : ∀ e : ℝ, 0 < dbToLin e * bps * rate * ((total : ℝ) / ndata) :=
    fun e => mul_pos (mul_pos (mul_pos (dbToLin_pos e) hbR) hr) hratio
  constructor
  · exact one_div_pos.mpr (hden e₁)
  · have hlt : dbToLin e₁ * bps * rate * ((total : ℝ) / ndata) <
        dbToLin e₂ * bps * rate * ((total : ℝ) / ndata) := by
      have := dbToLin_lt_dbToLin he
      have hpos : (0 : ℝ) < (bps : ℝ) * rate * ((total : ℝ) / ndata) :=
        mul_pos (mul_pos hbR hr) hratio
      calc dbToLin e₁ * bps * rate * ((total : ℝ) / ndata)
          = dbToLin e₁ * ((bps : ℝ) * rate * ((total : ℝ) / ndata)) := by ring
        _ < dbToLin e₂ * ((bps : ℝ) * rate * ((total : ℝ) / ndata)) :=
            mul_lt_mul_of_pos_right this hpos
        _ = dbToLin e₂ * bps * rate * ((total : ℝ) / ndata) := by ring
    exact one_div_lt_one_div_of_lt (hden e₁) hlt

/-- Witness for C3 at the end-to-end configuration (4-QAM, rate 1/2). -/
theorem snr_to_noise_variance_pos_strictAnti_witness :
    0 < snr_to_noise_variance 0 2 (1 / 2) 2 1 ∧
      snr_to_noise_variance 10 2 (1 / 2) 2 1 <
        snr_to_noise_variance 0 2 (1 / 2) 2 1 :=
  snr_to_noise_variance_pos_strictAnti 2 (1 / 2) 2 1 (by norm_num) (by norm_num)
    (by norm_num) (by norm_num) 0 10 (by norm_num)

/-- Modelled from the spec: the noise-variance translation "must reject
non-positive `bits_per_symbol`/`code_rate`/grid sizes"; on valid inputs it
returns the pure formula value. -/
noncomputable def snr_to_noise_variance_checked (ebnoDb : ℝ) (bps : ℕ)
    (rate : ℝ) (total ndata : ℕ) : Option ℝ :=
  if bps = 0 ∨ rate ≤ 0 ∨ total = 0 ∨ ndata = 0 then none
  else some (snr_to_noise_variance ebnoDb bps rate total ndata)

/-- C4: the noise-variance translation rejects non-positive bits-per-symbol,
code rate and grid sizes; on valid inputs it returns exactly the formula
value, and equal arguments give equal results (determinism, no side
effects). -/
theorem snr_to_noise_variance_checked_spec (ebnoDb : ℝ) (bps : ℕ) (rate : ℝ)
    (total ndata : ℕ) :
    (bps = 0 ∨ rate ≤ 0 ∨ total = 0 ∨ ndata = 0 →
      snr_to_noise_variance_checked ebnoDb bps rate total ndata = none) ∧
    (bps ≠ 0 → 0 < rate → total ≠ 0 → ndata ≠ 0 →
      snr_to_noise_variance_checked ebnoDb bps rate total ndata =
        some (snr_to_noise_variance ebnoDb bps rate total ndata)) ∧
    (∀ e' : ℝ, e' = ebnoDb →
      snr_to_noise_variance_checked e' bps rate total ndata =
        snr_to_noise_variance_checked ebnoDb bps rate total ndata) := by
  refine ⟨fun h => if_pos h, fun hb hr ht hd => ?_, fun e' he => by rw [he]⟩
  have : ¬(bps = 0 ∨ rate ≤ 0 ∨ total = 0 ∨ ndata = 0) := by
    push_neg
    exact ⟨hb, hr, ht, hd⟩
  exact if_neg this

/-- Witness for C4: rejection at `bps = 0` and acceptance at a valid
configuration. -/
theorem snr_to_noise_variance_checked_spec_witness :
    snr_to_noise_variance_checked 0 0 1 2 1 = none ∧
      snr_to_noise_variance_checked 0 2 (1 / 2) 2 1 =
        some (snr_to_noise_variance 0 2 (1 / 2) 2 1) :=
  ⟨(snr_to_noise_variance_checked_spec 0 0 1 2 1).1 (Or.inl rfl),
   (snr_to_noise_variance_checked_spec 0 2 (1 / 2) 2 1).2.1 (by norm_num)
     (by norm_num) (by norm_num) (by norm_num)⟩

/-! ### Construction-time configuration validation

`Link_Simulation.__init__` (lines 16-39) computes
`num_code_bits = int(num_data_symbols * num_bits_per_symbol)` and
`num_info_bits = int(num_code_bits * code_rate)` (lines 23-24) and then
constructs `LDPC5GEncoder(k=num_info_bits, n=num_code_bits)` (line 44). -/

/-- Python's `int()` truncation toward zero on a rational value. -/
def pyInt (q : ℚ) : ℤ := if 0 ≤ q then ⌊q⌋ else ⌈q⌉

/-- On non-negative arguments Python's `int()` truncation agrees with the
floor. -/
theorem pyInt_eq_floor {q : ℚ} (h : 0 ≤ q) : pyInt q = ⌊q⌋ := if_pos h

/-- Fatal configuration error raised at construction. -/
inductive ConfigError where
  | invalidCodeDims
deriving DecidableEq

/-- Code dimensions fixed at construction. -/
structure CodeDims where
  numCodeBits : ℤ
  numInfoBits : ℤ
deriving DecidableEq

/-- Embeds `Link_Simulation.__init__` lines 23-24 together with the encoder
construction of line 44.  Modelled from the spec for the part outside the
source: `num_info_bits ... must be a positive integer`, and invalid
dimensions raise a `ConfigurationError` once at construction. -/
def linkSimInit (numDataSymbols numBitsPerSymbol : ℕ) (codeRate : ℚ) :
    Except ConfigError CodeDims :=
  if 0 < pyInt ((((numDataSymbols : ℤ) * numBitsPerSymbol : ℤ) : ℚ) * codeRate)
  then .ok ⟨(numDataSymbols : ℤ) * numBitsPerSymbol,
            pyInt ((((numDataSymbols : ℤ) * numBitsPerSymbol : ℤ) : ℚ) * codeRate)⟩
  else .error .invalidCodeDims

/-- C9: construction succeeds exactly when
`floor(num_data_symbols * bits_per_symbol * code_rate)` is positive, in
which case `num_info_bits` equals that floor (a positive integer); otherwise
a configuration error is raised at construction, before any pipeline call. -/
theorem linkSimInit_spec (nds bps : ℕ) (rate : ℚ) (hr : 0 ≤ rate) :
    ((∃ d, linkSimInit nds bps rate = .ok d) ↔
      0 < ⌊(nds : ℚ) * bps * rate⌋) ∧
    (∀ d, linkSimInit nds bps rate = .ok d →
      d.numInfoBits = ⌊(nds : ℚ) * bps * rate⌋ ∧ 0 < d.numInfoBits ∧
        d.numCodeBits = (nds : ℤ) * bps) := by
  have hq : (0 : ℚ) ≤ (((nds : ℤ) * bps : ℤ) : ℚ) * rate :=
    mul_nonneg (by positivity) hr
  have key : pyInt ((((nds : ℤ) * bps : ℤ) : ℚ) * rate) =
      ⌊(nds : ℚ) * bps * rate⌋ := by
    rw [pyInt_eq_floor hq]
    congr 1
    push_cast
    ring
  by_cases h : 0 < pyInt ((((nds : ℤ) * bps : ℤ) : ℚ) * rate)
  · constructor
    · constructor
      · intro _
        rw [← key]
        exact h
      · intro _
        exact ⟨_, by rw [linkSimInit, if_pos h]⟩
    · intro d hd
      rw [linkSimInit, if_pos h] at hd
      cases hd
      exact ⟨key, h, rfl⟩
  · constructor
    · constructor
      · rintro ⟨d, hd⟩
        rw [linkSimInit, if_neg h] at hd
        cases hd
      · intro hfl
        rw [← key] at hfl
        exact absurd hfl h
    · intro d hd
      rw [linkSimInit, if_neg h] at hd
      cases hd

/-- Witness for C9 at the end-to-end configuration (8 code bits, rate 1/2). -/
theorem linkSimInit_spec_witness :
    ∃ d, linkSimInit 4 2 (1 / 2) = Except.ok d ∧ d.numInfoBits = 4 := by
  obtain ⟨d, hd⟩ := (linkSimInit_spec 4 2 (1 / 2) (by norm_num)).1.mpr
    (by norm_num)
  refine ⟨d, hd, ?_⟩
  have hval := ((linkSimInit_spec 4 2 (1 / 2) (by norm_num)).2 d hd).1
  rw [hval]
  norm_num

/-! ### LS channel estimator

`__initialize_receiver` builds `LSChannelEstimator(resource_grid,
interpolation_type="nn")` (line 76); `receive` calls it on
`[rx_symbols, no]` (line 108).  Modelled from the spec: least-squares
estimate at each pilot location (received pilot divided by the known
transmitted pilot value), error variance `N0 / |pilot|^2`, and
nearest-neighbour interpolation that copies the estimate of the nearest
pilot, ties broken toward the earlier pilot in the configured ordering. -/

/-- Distance between two flattened resource-grid indices. -/
def gridDist {n : ℕ} (i j : Fin n) : ℕ := max (i.val - j.val) (j.val - i.val)

/-- Distance from an index to itself is zero. -/
theorem gridDist_self {n : ℕ} (i : Fin n) : gridDist i i = 0 := by
  simp [gridDist]

/-- One fold step of nearest-pilot selection: keep the closer candidate,
the incumbent on ties. -/
def nearStep {n : ℕ} (i : Fin n) (acc : Option (Fin n)) (p : Fin n) :
    Option (Fin n) :=
  match acc with
  | none => some p
  | some q => if gridDist i p < gridDist i q then some p else some q

/-- Modelled from the spec: the pilot nearest to grid index `i`, ties broken
toward the earlier pilot. -/
def nearestPilot {n : ℕ} (pilots : List (Fin n)) (i : Fin n) : Option (Fin n) :=
  pilots.foldl (nearStep i) none

/-- Once the accumulator holds the index itself (distance zero), the fold
never moves away from it. -/
theorem foldl_nearStep_some_self {n : ℕ} (i : Fin n) (l : List (Fin n)) :
    List.foldl (nearStep i) (some i) l = some i := by
  induction l with
  | nil => rfl
  | cons p t ih =>
    have hstep : nearStep i (some i) p = some i := by
      simp [nearStep, gridDist_self]
    rw [List.foldl_cons, hstep, ih]

/-- Stepping past the index itself lands the accumulator on it, from any
starting accumulator. -/
theorem nearStep_self {n : ℕ} (i : Fin n) (acc : Option (Fin n)) :
    nearStep i acc i = some i := by
  match acc with
  | none => rfl
  | some q =>
    simp only [nearStep, gridDist_self]
    split
    · rfl
    · next h =>
      have hq : gridDist i q = 0 := Nat.le_zero.mp (Nat.not_lt.mp h)
      have : q = i := by
        have h1 : i.val - q.val = 0 := by
          have := Nat.max_eq_zero_iff.mp hq
          exact this.1
        have h2 : q.val - i.val = 0 := (Nat.max_eq_zero_iff.mp hq).2
        exact Fin.ext (Nat.le_antisymm (Nat.sub_eq_zero_iff_le.mp h2)
          (Nat.sub_eq_zero_iff_le.mp h1))
      rw [this]

/-- A pilot position is its own nearest pilot. -/
theorem nearestPilot_mem_self {n : ℕ} (pilots : List (Fin n)) (p : Fin n)
    (h : p ∈ pilots) : nearestPilot pilots p = some p := by
  have key : ∀ (l : List (Fin n)) (acc : Option (Fin n)), p ∈ l →
      List.foldl (nearStep p) acc l = some p := by
    intro l
    induction l with
    | nil => intro acc hm; cases hm
    | cons q t ih =>
      intro acc hm
      rcases List.mem_cons.mp hm with rfl | ht
      · rw [List.foldl_cons, nearStep_self]
        exact foldl_nearStep_some_self p t
      · rw [List.foldl_cons]
        exact ih _ ht
  exact key pilots none h

/-- Modelled from the spec: `LSChannelEstimator` with nearest-neighbour
interpolation.  At each grid index the channel estimate is the received
value at the nearest pilot divided by the transmitted pilot symbol there,
and the error variance is `N0 / |pilot|^2` copied from the same pilot. -/
def lsEstimate {K : Type} [Field K] {n : ℕ} (pilots : List (Fin n))
    (pilotSym : Fin n → Cplx K) (rx : Fin n → Cplx K) (no : K) :
    (Fin n → Cplx K) × (Fin n → K) :=
  (fun i => match nearestPilot pilots i with
    | some p => (rx p).div (pilotSym p)
    | none => ⟨0, 0⟩,
   fun i => match nearestPilot pilots i with
    | some p => no / (pilotSym p).normSq
    | none => 0)

/-- C5: with zero noise (so the received pilot is `h * pilot`) and
unit-magnitude pilot symbols, the LS estimate at every pilot position
exactly equals the true channel value that generated the observation. -/
theorem lsEstimate_exact_at_pilots {K : Type} [Field K] {n : ℕ}
    (pilots : List (Fin n)) (pilotSym htrue : Fin n → Cplx K) (no : K)
    (p : Fin n) (_hno : no = 0) (hmem : p ∈ pilots)
    (hunit : (pilotSym p).normSq = 1) :
    (lsEstimate pilots pilotSym (fun i => (htrue i).mul (pilotSym i)) no).1 p =
      htrue p := by
  have hnp := nearestPilot_mem_self pilots p hmem
  simp only [lsEstimate, hnp]
  exact Cplx.mul_div_cancel_of_normSq_one _ _ hunit

/-- Witness for C5 on a 3-element grid with one pilot at index 1. -/
theorem lsEstimate_exact_at_pilots_witness :
    (lsEstimate [(1 : Fin 3)] (fun _ => (⟨0, 1⟩ : Cplx ℚ))
      (fun i => ((fun _ => (⟨2, 3⟩ : Cplx ℚ)) i).mul ((fun _ => (⟨0, 1⟩ : Cplx ℚ)) i))
      0).1 1 = ⟨2, 3⟩ :=
  lsEstimate_exact_at_pilots [(1 : Fin 3)] (fun _ => (⟨0, 1⟩ : Cplx ℚ))
    (fun _ => (⟨2, 3⟩ : Cplx ℚ)) 0 1 rfl (by decide)
    (by norm_num [Cplx.normSq])

/-! ### LMMSE equalizer

`__initialize_receiver` builds `LMMSEEqualizer(resource_grid,
stream_management)` (line 77); `receive` calls it on
`[rx_symbols, channel_estimation, error_variance, no]` (line 109).
Modelled from the spec: the single-antenna per-element form with a
numerical floor `eps` on the denominator. -/

/-- Modelled from the spec: per-element LMMSE equalization.  Returns the
equalized symbol `conj(H_hat) * rx / d` and effective noise
`(N0 + err_var) / d` where `d = max (|H_hat|^2 + N0 + err_var) eps` applies
the numerical floor. -/
def lmmseEqualize {K : Type} [LinearOrderedField K] (eps : K)
    (hhat rx : Cplx K) (no ev : K) : Cplx K × K :=
  ((hhat.conj.mul rx).smul (1 / max (hhat.normSq + no + ev) eps),
   (no + ev) / max (hhat.normSq + no + ev) eps)

/-- C6: the equalizer's denominator is floored at `eps`, hence positive (no
non-finite result), and whenever `|H_hat|^2 + N0 + err_var` is at least the
floor the outputs equal the exact single-antenna LMMSE formulas
`conj(H_hat) * rx / (|H_hat|^2 + N0 + err_var)` and
`(N0 + err_var) / (|H_hat|^2 + N0 + err_var)`. -/
theorem lmmseEqualize_spec {K : Type} [LinearOrderedField K] (eps : K)
    (hhat rx : Cplx K) (no ev : K) (heps : 0 < eps) :
    (0 < max (hhat.normSq + no + ev) eps ∧
      eps ≤ max (hhat.normSq + no + ev) eps) ∧
    (eps ≤ hhat.normSq + no + ev →
      lmmseEqualize eps hhat rx no ev =
        ((hhat.conj.mul rx).smul (1 / (hhat.normSq + no + ev)),
         (no + ev) / (hhat.normSq + no + ev))) := by
  refine ⟨⟨lt_of_lt_of_le heps (le_max_right _ _), le_max_right _ _⟩, ?_⟩
  intro h
  rw [lmmseEqualize, max_eq_left h]

/-- Witness for C6 at a concrete rational grid element. -/
theorem lmmseEqualize_spec_witness :
    (0 < max ((⟨1, 0⟩ : Cplx ℚ).normSq + 1 + 0) 1) ∧
      lmmseEqualize 1 (⟨1, 0⟩ : Cplx ℚ) ⟨2, 0⟩ 1 0 =
        (((⟨1, 0⟩ : Cplx ℚ).conj.mul ⟨2, 0⟩).smul
          (1 / ((⟨1, 0⟩ : Cplx ℚ).normSq + 1 + 0)),
         (1 + 0) / ((⟨1, 0⟩ : Cplx ℚ).normSq + 1 + 0)) :=
  ⟨(lmmseEqualize_spec 1 (⟨1, 0⟩ : Cplx ℚ) ⟨2, 0⟩ 1 0 (by norm_num)).1.1,
   (lmmseEqualize_spec 1 (⟨1, 0⟩ : Cplx ℚ) ⟨2, 0⟩ 1 0 (by norm_num)).2
     (by norm_num [Cplx.normSq])⟩

/-! ### LDPC belief-propagation decoder

`__initialize_receiver` builds `LDPC5GDecoder(self.ldpc_encoder,
hard_out=True)` (line 80); `receive` calls it on the LLRs (line 111).
Modelled from the spec: iterative message passing on a bipartite graph of
variable nodes (codeword bits) and check nodes (parity constraints), with
extrinsic min-sum check updates, early exit once all parity checks are
satisfied, and otherwise a hard sign-of-belief decision after the fixed
maximum iteration count. -/

/-- An LDPC parity-check structure over `n` codeword bits: each check lists
the variable indices it constrains. -/
structure LdpcCode (n : ℕ) where
  checks : List (List (Fin n))

/-- Check list as a function of the check index. -/
def checksFn {n : ℕ} (code : LdpcCode n) :
    Fin code.checks.length → List (Fin n) :=
  fun c => code.checks.get c

/-- Hard decision from a belief: negative belief decodes to bit 1. -/
def hardDecisionBit {K : Type} [LinearOrderedField K] (b : K) : Bool :=
  decide (b < 0)

/-- Parity of one check under a bit assignment. -/
def checkParity {n : ℕ} (bits : Fin n → Bool) (c : List (Fin n)) : Bool :=
  c.foldl (fun a j => xor a (bits j)) false

/-- All parity checks are satisfied (even parity everywhere). -/
def allChecksSatisfied {n : ℕ} (code : LdpcCode n) (bits : Fin n → Bool) :
    Bool :=
  code.checks.all (fun c => !(checkParity bits c))

/-- Sign factor of a message. -/
def msgSign {K : Type} [LinearOrderedField K] (x : K) : K :=
  if x < 0 then -1 else 1

/-- Minimum of a list of magnitudes (zero for an empty list). -/
def listMin {K : Type} [LinearOrderedField K] : List K → K
  | [] => 0
  | x :: xs => xs.foldl min x

/-- Total belief of a variable node: its channel LLR plus all incoming
check-to-variable messages. -/
def belief {K : Type} [LinearOrderedField K] {n nc : ℕ} (llr : Fin n → K)
    (m : Fin nc → Fin n → K) (i : Fin n) : K :=
  llr i + ∑ c, m c i

/-- Modelled from the spec: one flooding min-sum iteration.  The extrinsic
variable-to-check message is the belief minus the recipient check's own
contribution; the new check-to-variable message combines the signs and the
minimum magnitude of the other participants' messages. -/
def bpStep {K : Type} [LinearOrderedField K] {n nc : ℕ}
    (checks : Fin nc → List (Fin n)) (llr : Fin n → K)
    (m : Fin nc → Fin n → K) : Fin nc → Fin n → K :=
  fun c i =>
    if i ∈ checks c then
      (((checks c).filter (fun j => j != i)).foldl
          (fun a j => a * msgSign ((llr j + ∑ d, m d j) - m c j)) 1) *
        listMin (((checks c).filter (fun j => j != i)).map
          (fun j => |(llr j + ∑ d, m d j) - m c j|))
    else 0

/-- Modelled from the spec: run BP for at most `fuel` iterations, stopping
early once every parity check is satisfied by the current hard
decisions. -/
def bpRun {K : Type} [LinearOrderedField K] {n : ℕ} (code : LdpcCode n)
    (llr : Fin n → K) :
    ℕ → (Fin code.checks.length → Fin n → K) →
      (Fin code.checks.length → Fin n → K)
  | 0, m => m
  | fuel + 1, m =>
    if allChecksSatisfied code (fun i => hardDecisionBit (belief llr m i))
    then m
    else bpRun code llr fuel (bpStep (checksFn code) llr m)

/-- Embeds the hard-output decoding call of `receive` line 111: run BP from
all-zero check messages and return the sign-of-belief hard decisions. -/
def ldpcDecode {K : Type} [LinearOrderedField K] {n : ℕ} (code : LdpcCode n)
    (maxIter : ℕ) (llr : Fin n → K) : Fin n → Bool :=
  fun i => hardDecisionBit (belief llr (bpRun code llr maxIter (fun _ _ => 0)) i)

/-- When no intermediate state satisfies all checks, `bpRun` takes every one
of its `fuel` iterations. -/
theorem bpRun_eq_iterate {K : Type} [LinearOrderedField K] {n : ℕ}
    (code : LdpcCode n) (llr : Fin n → K) (fuel : ℕ)
    (m : Fin code.checks.length → Fin n → K)
    (hns : ∀ k < fuel, allChecksSatisfied code
      (fun i => hardDecisionBit (belief llr
        ((bpStep (checksFn code) llr)^[k] m) i)) = false) :
    bpRun code llr fuel m = (bpStep (checksFn code) llr)^[fuel] m := by
  induction fuel generalizing m with
  | zero => rfl
  | succ fuel ih =>
    have h0 := hns 0 (Nat.succ_pos fuel)
    simp only [Function.iterate_zero, id] at h0
    rw [bpRun, if_neg (by rw [h0]; exact Bool.false_ne_true)]
    have hshift : ∀ k < fuel, allChecksSatisfied code
        (fun i => hardDecisionBit (belief llr
          ((bpStep (checksFn code) llr)^[k]
            (bpStep (checksFn code) llr m)) i)) = false := by
      intro k hk
      have := hns (k + 1) (Nat.succ_lt_succ hk)
      rwa [Function.iterate_succ_apply] at this
    rw [ih _ hshift, ← Function.iterate_succ_apply]

/-- C7: the decoder is a total function into hard bit decisions — no error
path exists — and on non-convergence (no iterate satisfies all parity
checks) it stops exactly at the fixed maximum iteration count and returns
the sign-of-belief hard decisions of the final state as data. -/
theorem ldpcDecode_nonconvergence {K : Type} [LinearOrderedField K] {n : ℕ}
    (code : LdpcCode n) (maxIter : ℕ) (llr : Fin n → K)
    (hns : ∀ k < maxIter, allChecksSatisfied code
      (fun i => hardDecisionBit (belief llr
        ((bpStep (checksFn code) llr)^[k] (fun _ _ => 0)) i)) = false) :
    ldpcDecode code maxIter llr =
      fun i => hardDecisionBit (belief llr
        ((bpStep (checksFn code) llr)^[maxIter] (fun _ _ => 0)) i) := by
  funext i
  rw [ldpcDecode, bpRun_eq_iterate code llr maxIter _ hns]

/-- Witness for C7: a single-check code whose all-negative LLR input never
converges; the decoder runs both iterations and outputs the sign
decisions. -/
theorem ldpcDecode_nonconvergence_witness :
    ldpcDecode (⟨[[0]]⟩ : LdpcCode 1) 2 (fun _ => (-1 : ℚ)) =
      fun i => hardDecisionBit (belief (fun _ => (-1 : ℚ))
        ((bpStep (checksFn (⟨[[0]]⟩ : LdpcCode 1)) (fun _ => (-1 : ℚ)))^[2]
          (fun _ _ => 0)) i) := by
  apply ldpcDecode_nonconvergence
  have hfix : bpStep (checksFn (⟨[[0]]⟩ : LdpcCode 1)) (fun _ => (-1 : ℚ))
      (fun _ _ => (0 : ℚ)) = fun _ _ => (0 : ℚ) := by
    funext c i
    fin_cases c
    fin_cases i
    simp [bpStep, checksFn, listMin]
  intro k _
  rw [Function.iterate_fixed hfix k]
  simp [allChecksSatisfied, checkParity, hardDecisionBit, belief]

/-! ### Tensor shapes through the pipeline

`transmit` draws `info_bits` of shape
`[batch_size, num_UE, resource_grid.num_streams_per_tx, num_info_bits]`
(line 92, with `num_UE = 1` fixed at line 30); `receive` ends in the hard
LDPC decoder (lines 111-112). -/

/-- Construction-time shape parameters of a `Link_Simulation`. -/
structure ShapeConfig where
  batchSize : ℕ
  numTx : ℕ
  numStreamsPerTx : ℕ
  numDataSymbols : ℕ
  numBitsPerSymbol : ℕ
  codeRate : ℚ
deriving DecidableEq

/-- Value of `num_info_bits` for a shape configuration, as computed at
construction (lines 23-24). -/
def numInfoBitsOf (c : ShapeConfig) : ℕ :=
  (pyInt ((((c.numDataSymbols : ℤ) * c.numBitsPerSymbol : ℤ) : ℚ) *
    c.codeRate)).toNat

/-- Shape of the info-bit tensor drawn by `transmit` (line 92): the second
axis is `num_UE = 1`. -/
def infoBitsShape (c : ShapeConfig) : List ℕ :=
  [c.batchSize, 1, c.numStreamsPerTx, numInfoBitsOf c]

/-- Modelled from the spec: the equalizer returns one estimate per data
symbol, shape `[batch, num_tx, streams, num_data_symbols]`. -/
def equalizedShape (c : ShapeConfig) : List ℕ :=
  [c.batchSize, c.numTx, c.numStreamsPerTx, c.numDataSymbols]

/-- Modelled from the spec: the demapper produces `bits_per_symbol` LLRs
per symbol, expanding the last axis. -/
def demapShape (bps : ℕ) : List ℕ → List ℕ
  | [b, t, s, d] => [b, t, s, d * bps]
  | l => l

/-- Modelled from the spec: the hard-output 5G LDPC decoder replaces the
codeword axis by the `k = num_info_bits` info axis. -/
def decoderShape (k : ℕ) : List ℕ → List ℕ
  | [b, t, s, _] => [b, t, s, k]
  | l => l

/-- Shape of the decoded-bit tensor returned by `receive` (lines 106-112):
the equalizer output pushed through demapper and decoder. -/
def decodedBitsShape (c : ShapeConfig) : List ℕ :=
  decoderShape (numInfoBitsOf c) (demapShape c.numBitsPerSymbol (equalizedShape c))

/-- C8: for the single-transmitter configuration the decoded-bit tensor of
`receive` has exactly the shape of the info-bit tensor of `transmit`,
namely `[batch_size, num_tx, num_streams_per_tx, num_info_bits]`. -/
theorem decodedBitsShape_eq_infoBitsShape (c : ShapeConfig)
    (h : c.numTx = 1) :
    decodedBitsShape c = infoBitsShape c ∧
      decodedBitsShape c =
        [c.batchSize, c.numTx, c.numStreamsPerTx, numInfoBitsOf c] := by
  constructor
  · simp [decodedBitsShape, infoBitsShape, decoderShape, demapShape,
      equalizedShape, h]
  · simp [decodedBitsShape, decoderShape, demapShape, equalizedShape]

/-- Witness for C8 at the end-to-end configuration of the source's main
block (batch 10, 4-QAM, rate 1/2). -/
theorem decodedBitsShape_eq_infoBitsShape_witness :
    decodedBitsShape ⟨10, 1, 1, 4, 2, 1 / 2⟩ =
        infoBitsShape ⟨10, 1, 1, 4, 2, 1 / 2⟩ ∧
      decodedBitsShape ⟨10, 1, 1, 4, 2, 1 / 2⟩ =
        [10, 1, 1, numInfoBitsOf ⟨10, 1, 1, 4, 2, 1 / 2⟩] :=
  decodedBitsShape_eq_infoBitsShape ⟨10, 1, 1, 4, 2, 1 / 2⟩ rfl

/-! ### The assembled receive path

`Link_Simulation.receive` (lines 106-112) chains noise-variance
translation, LS estimation, LMMSE equalization, APP demapping and hard
LDPC decoding.  The soft demapper is modelled from the spec; the
composition below follows the source line by line. -/

/-- Gaussian likelihood weight of a candidate constellation point under
effective noise variance `noEff`. -/
noncomputable def gaussWeight (noEff : ℝ) (x s : Cplx ℝ) : ℝ :=
  Real.exp (-(x.sub s).normSq / noEff)

/-- Modelled from the spec: APP soft demapping.  The LLR of bit position
`b` is the log-ratio of the summed Gaussian likelihoods of the
constellation points whose label has bit `b` equal to 0 versus 1. -/
noncomputable def appLlr (points : List (Cplx ℝ × (ℕ → Bool))) (b : ℕ)
    (x : Cplx ℝ) (noEff : ℝ) : ℝ :=
  Real.log
    (((points.filter (fun p => !p.2 b)).map
        (fun p => gaussWeight noEff x p.1)).sum /
     ((points.filter (fun p => p.2 b)).map
        (fun p => gaussWeight noEff x p.1)).sum)

/-- Construction-time receiver configuration of a `Link_Simulation`:
resource-grid geometry with data positions and pilots, QAM constellation
with bit labels, parity-check structure, iteration cap, numerical floor,
and the rate parameters of the noise-variance translator. -/
structure LinkConfig where
  nGrid : ℕ
  nData : ℕ
  bps : ℕ
  dataIdx : Fin nData → Fin nGrid
  pilots : List (Fin nGrid)
  pilotSym : Fin nGrid → Cplx ℝ
  points : List (Cplx ℝ × (ℕ → Bool))
  code : LdpcCode (nData * bps)
  maxIter : ℕ
  eps : ℝ
  codeRate : ℝ
  totalREs : ℕ

/-- Per-instance random state of a `Link_Simulation`: the pseudo-random
permutation drawn by `RandomInterleaver()` at construction (line 48, also
wrapped by the receiver's `Deinterleaver` at line 79) and the
`BinarySource` state (line 43).  Only `transmit` consumes them. -/
structure LinkSim (cfg : LinkConfig) where
  perm : Equiv.Perm (Fin (cfg.nData * cfg.bps))
  rngSeed : ℕ

/-- LLR vector over the data symbols in transmit bit order:
`bits_per_symbol` LLRs per equalized symbol. -/
noncomputable def demapGrid (cfg : LinkConfig)
    (xhat : Fin cfg.nData → Cplx ℝ) (noEff : Fin cfg.nData → ℝ) :
    Fin (cfg.nData * cfg.bps) → ℝ :=
  fun i =>
    have hdiv : i.val / cfg.bps < cfg.nData :=
      Nat.div_lt_of_lt_mul (Nat.mul_comm cfg.nData cfg.bps ▸ i.isLt)
    appLlr cfg.points (i.val % cfg.bps) (xhat ⟨i.val / cfg.bps, hdiv⟩)
      (noEff ⟨i.val / cfg.bps, hdiv⟩)

/-- The LLRs computed inside `receive` up to line 110: noise variance,
LS estimate, per-data-element LMMSE equalization, APP demapping. -/
noncomputable def receiveDemapperLlr (cfg : LinkConfig)
    (rx : Fin cfg.nGrid → Cplx ℝ) (ebnoDb : ℝ) :
    Fin (cfg.nData * cfg.bps) → ℝ :=
  let no := snr_to_noise_variance ebnoDb cfg.bps cfg.codeRate cfg.totalREs
    cfg.nData
  let est := lsEstimate cfg.pilots cfg.pilotSym rx no
  let eqz := fun k : Fin cfg.nData =>
    lmmseEqualize cfg.eps (est.1 (cfg.dataIdx k)) (rx (cfg.dataIdx k)) no
      (est.2 (cfg.dataIdx k))
  demapGrid cfg (fun k => (eqz k).1) (fun k => (eqz k).2)

/-- Embeds `Link_Simulation.receive` (lines 106-112).  As in the source,
the demapper's LLRs of line 110 are handed to the LDPC decoder at line 111
directly; the `Deinterleaver` constructed at line 79 is never invoked. -/
noncomputable def receive (cfg : LinkConfig) (_sim : LinkSim cfg)
    (rx : Fin cfg.nGrid → Cplx ℝ) (ebnoDb : ℝ) :
    Fin (cfg.nData * cfg.bps) → Bool :=
  ldpcDecode cfg.code cfg.maxIter (receiveDemapperLlr cfg rx ebnoDb)

/-- C1 (code bug): in `receive` the LDPC decoder consumes the demapper
output itself — the deinterleaver never runs — although deinterleaving
with the configured permutation is not the identity on LLR sequences, so
the decoder's input differs from the deinterleaved coded-bit order the
spec requires whenever the permutation moves any index. -/
theorem receive_decoder_input_is_demapper_output :
    (∀ (cfg : LinkConfig) (sim : LinkSim cfg) (rx : Fin cfg.nGrid → Cplx ℝ)
      (e : ℝ), receive cfg sim rx e =
        ldpcDecode cfg.code cfg.maxIter (receiveDemapperLlr cfg rx e)) ∧
    decide (deinterleave (Equiv.swap (0 : Fin 2) 1)
      (fun i : Fin 2 => i.val) = fun i : Fin 2 => i.val) = false :=
  ⟨fun _ _ _ _ => rfl, by decide⟩

/-- C10: `receive` reads only the construction-time configuration and its
arguments; two simulator instances over the same configuration — however
their random interleaver permutation and source state differ — return
identical decoded bits on identical `rx_symbols` and `ebno_db`. -/
theorem receive_deterministic (cfg : LinkConfig) (s₁ s₂ : LinkSim cfg)
    (rx : Fin cfg.nGrid → Cplx ℝ) (e : ℝ) :
    receive cfg s₁ rx e = receive cfg s₂ rx e := rfl

end LinkAdaptation
